import Mathlib

/-!
Verification of the brdb_cmd core: the virtual-filesystem path resolver
(`traverse`), the directory lister (`list_dir`), the suffix-based content
dispatch (`read_file`), and the CLI path normalization, embedded shallowly
from `src/main.rs`.
-/

namespace BrdbCmd

/-- Modelled from the spec: the `BrFs` virtual node type comes from the external
`brdb` crate (not in this repository's sources). Per spec §3 it is a closed
tagged union: `Root(mapping)`, `Folder(metadata, mapping)`, `File(metadata)`,
where the mapping sends child names to child nodes (keys unique per parent)
and metadata is opaque to the core. The mapping is modelled as an association
list in iteration order. -/
inductive BrFs where
  | root (children : List (String × BrFs))
  | folder (meta : String) (children : List (String × BrFs))
  | file (meta : String)
deriving Repr

/-- The navigation error type `TraverseError` of `src/main.rs`. -/
inductive TraverseError where
  | noParentOfRoot
  | notFound (name : String)
  | traverseIntoFile
deriving DecidableEq, Repr

/-- Association-list lookup, modelling `map.get(part)` on the child mapping. -/
def childLookup (name : String) : List (String × BrFs) → Option BrFs
  | [] => none
  | kv :: rest => if kv.1 = name then some kv.2 else childLookup name rest

/-- Rust `path.split('/')` on the character `'/'`: yields the (possibly empty)
chunks between slashes; the empty string splits to `[""]`. Character-list
worker. -/
def splitSlashAux : List Char → List (List Char)
  | [] => [[]]
  | c :: cs =>
    match splitSlashAux cs with
    | [] => [[c]]
    | a :: as => if c = '/' then [] :: a :: as else (c :: a) :: as

/-- Rust `path.split('/')` as a function on strings. -/
def splitSlash (s : String) : List String :=
  (splitSlashAux s.toList).map (fun l => String.mk l)

/-- Strip every leading `'/'` character, modelling Rust
`trim_start_matches("/")` (which removes the pattern repeatedly). -/
def dropLeadingSlashes : List Char → List Char
  | [] => []
  | c :: cs => if c = '/' then dropLeadingSlashes cs else c :: cs

/-- `argv[3].trim_start_matches("/")`: the normalization `main` applies to the
path argument at CLI ingestion. -/
def trim_start_slash (s : String) : String :=
  String.mk (dropLeadingSlashes s.toList)

/-- The normalization `list_dir` applies: `trim_start_matches("/")` followed by
`trim_end_matches("/")` (each removes its pattern repeatedly). -/
def lsTrim (s : String) : String :=
  String.mk ((dropLeadingSlashes ((dropLeadingSlashes s.toList).reverse)).reverse)

/-- The segment-processing loop of `traverse` in `src/main.rs`: the stack
`traversal` starts as `[root]` (head of the list is the top of the stack);
`"."` is a no-op, `".."` pops, any other segment is looked up in the child
mapping of the stack top and the child is pushed. -/
def traverseLoop : List BrFs → List String → Except TraverseError (List BrFs)
  | stack, [] => Except.ok stack
  | stack, part :: rest =>
    if part = "." then traverseLoop stack rest
    else if part = ".." then
      match stack with
      | [] => Except.error TraverseError.noParentOfRoot
      | _ :: s => traverseLoop s rest
    else
      match stack with
      | [] => Except.error TraverseError.noParentOfRoot
      | top :: others =>
        match top with
        | BrFs.root m =>
          match childLookup part m with
          | some v => traverseLoop (v :: top :: others) rest
          | none => Except.error (TraverseError.notFound part)
        | BrFs.folder _ m =>
          match childLookup part m with
          | some v => traverseLoop (v :: top :: others) rest
          | none => Except.error (TraverseError.notFound part)
        | BrFs.file _ => Except.error TraverseError.traverseIntoFile

/-- `traverse` on an already-split segment list: run the loop from `[root]`,
then pop and return the top of the stack (`NoParentOfRoot` if empty). -/
def traverseSegs (t : BrFs) (segs : List String) : Except TraverseError BrFs :=
  match traverseLoop [t] segs with
  | Except.ok [] => Except.error TraverseError.noParentOfRoot
  | Except.ok (top :: _) => Except.ok top
  | Except.error e => Except.error e

/-- `traverse(root, path)` of `src/main.rs`: split the path on `'/'` and run
the traversal loop. -/
def traverse (t : BrFs) (path : String) : Except TraverseError BrFs :=
  traverseSegs t (splitSlash path)

/-- `strings_to_lines` of `src/main.rs`: fold the names into a buffer, each
followed by `'\n'`. -/
def strings_to_lines (names : List String) : String :=
  names.foldl (fun buf name => buf ++ name ++ "\n") ""

/-- `list_dir(fs, path)` of `src/main.rs`: trim leading and trailing `/`; an
empty result means the root itself (no traversal), otherwise traverse; then
list the child names of a Root/Folder, or return the trimmed path for a File. -/
def list_dir (fs : BrFs) (path : String) : Except TraverseError String :=
  match (if lsTrim path = "" then Except.ok fs else traverse fs (lsTrim path)) with
  | Except.error e => Except.error e
  | Except.ok sub =>
    match sub with
    | BrFs.root m => Except.ok (strings_to_lines (m.map Prod.fst))
    | BrFs.folder _ m => Except.ok (strings_to_lines (m.map Prod.fst))
    | BrFs.file _ => Except.ok (lsTrim path)

/-- Rust `path.split_once(".")` on the character list: split at the first
`'.'`, returning the parts before and after it, or `none` if absent. -/
def splitOnceDotAux : List Char → Option (List Char × List Char)
  | [] => none
  | c :: cs =>
    if c = '.' then some ([], cs)
    else (splitOnceDotAux cs).map (fun pr => (c :: pr.1, pr.2))

/-- Rust `path.split_once(".")` as a function on strings. -/
def splitOnceDot (s : String) : Option (String × String) :=
  (splitOnceDotAux s.toList).map (fun pr => (String.mk pr.1, String.mk pr.2))

/-- The three recognized rendering behaviors of `read_file` in `src/main.rs`
(the byte-level work is done by the external storage collaborator and is
abstracted to the chosen action). -/
inductive RenderAction where
  | renderSchema
  | renderJson
  | writeRawMps
deriving DecidableEq, Repr

/-- The suffix dispatch of `read_file(db, path)` in `src/main.rs`:
`path.split_once(".")` (first `.` of the whole path) yields the extension;
`.unwrap()` on a dotless path panics, modelled as `none`; the extension
selects schema/json/mps rendering, anything else is `Err("Invalid file type")`.
The external storage collaborator's byte reads and decodes inside each
recognized arm are abstracted to the arm's `RenderAction`. -/
def read_file (path : String) : Option (Except String RenderAction) :=
  match splitOnceDot path with
  | none => none
  | some (_, ext) =>
    if ext = "schema" then some (Except.ok RenderAction.renderSchema)
    else if ext = "json" then some (Except.ok RenderAction.renderJson)
    else if ext = "mps" then some (Except.ok RenderAction.writeRawMps)
    else some (Except.error "Invalid file type")

/-- The suffix after the last `'.'` of the string, `none` when there is no
`'.'`. Spec-side notion used to compare against the implementation's
classification (which uses the first `'.'`). -/
def lastDotSuffix (s : String) : Option String :=
  (splitOnceDotAux s.toList.reverse).map (fun pr => String.mk pr.1.reverse)

/-- Spec-side reading of "a leading `/` is stripped once": remove exactly one
leading slash when present. Compared against `trim_start_slash`. -/
def specStripOnce (s : String) : String :=
  match s.toList with
  | '/' :: cs => String.mk cs
  | _ => s

/-- Spec-side "literally following" the segments from a current node with its
chain of ancestors: `.` stays in place, `..` moves to the parent (undefined at
the root), a name moves to that child (undefined when absent or when the
current node is a File). -/
def litFollow : BrFs → List BrFs → List String → Option BrFs
  | cur, _, [] => some cur
  | cur, up, part :: rest =>
    if part = "." then litFollow cur up rest
    else if part = ".." then
      match up with
      | [] => none
      | p :: up2 => litFollow p up2 rest
    else
      match cur with
      | BrFs.file _ => none
      | BrFs.root m =>
        match childLookup part m with
        | some c => litFollow c (cur :: up) rest
        | none => none
      | BrFs.folder _ m =>
        match childLookup part m with
        | some c => litFollow c (cur :: up) rest
        | none => none

/-- Running the traversal loop on `p ++ q` is running it on `p` and, on
success, continuing with the resulting stack on `q`. -/
theorem traverseLoop_append (p q : List String) (stack : List BrFs) :
    traverseLoop stack (p ++ q) =
      match traverseLoop stack p with
      | Except.ok s => traverseLoop s q
      | Except.error e => Except.error e := by
  induction p generalizing stack with
  | nil => simp [traverseLoop]
  | cons part rest ih =>
    simp only [List.cons_append, traverseLoop]
    by_cases h1 : part = "."
    · simp [h1, ih]
    · by_cases h2 : part = ".."
      · cases stack with
        | nil => simp [h1, h2]
        | cons top s => simp [h1, h2, ih]
      · cases stack with
        | nil => simp [h1, h2]
        | cons top others =>
          cases top with
          | root m =>
            cases hc : childLookup part m with
            | some v => simp [h1, h2, hc, ih]
            | none => simp [h1, h2, hc]
          | folder md m =>
            cases hc : childLookup part m with
            | some v => simp [h1, h2, hc, ih]
            | none => simp [h1, h2, hc]
          | file md => simp [h1, h2]

/-- If literally following the segments from `cur` (ancestors `up`) reaches
`v`, the implementation's stack loop started on the same state succeeds and
leaves `v` on top of the stack. -/
theorem litFollow_traverseLoop (segs : List String) :
    ∀ (cur : BrFs) (up : List BrFs) (v : BrFs), litFollow cur up segs = some v →
      ∃ s, traverseLoop (cur :: up) segs = Except.ok (v :: s) := by
  induction segs with
  | nil =>
    intro cur up v h
    simp only [litFollow, Option.some.injEq] at h
    subst h
    exact ⟨up, rfl⟩
  | cons part rest ih =>
    intro cur up v h
    simp only [litFollow] at h
    simp only [traverseLoop]
    by_cases h1 : part = "."
    · simp only [h1, if_pos rfl] at h ⊢
      exact ih cur up v h
    · by_cases h2 : part = ".."
      · cases up with
        | nil => simp [h1, h2] at h
        | cons p up2 =>
          simp [h1, h2] at h ⊢
          exact ih p up2 v h
      · cases cur with
        | file md => simp [h1, h2] at h
        | root m =>
          cases hc : childLookup part m with
          | some c =>
            simp [h1, h2, hc] at h ⊢
            exact ih c (BrFs.root m :: up) v h
          | none => simp [h1, h2, hc] at h
        | folder md m =>
          cases hc : childLookup part m with
          | some c =>
            simp [h1, h2, hc] at h ⊢
            exact ih c (BrFs.folder md m :: up) v h
          | none => simp [h1, h2, hc] at h

/-- C1: for every tree and every path whose segments are only valid child
names, `.`, and `..`, never net-ascending above the root and never descending
into a File (i.e. literally following the split segments from the root is
defined and yields `v`), `traverse` succeeds and returns exactly `v`. -/
theorem traverse_follows_literal (t : BrFs) (path : String) (v : BrFs)
    (h : litFollow t [] (splitSlash path) = some v) :
    traverse t path = Except.ok v := by
  obtain ⟨s, hs⟩ := litFollow_traverseLoop (splitSlash path) t [] v h
  unfold traverse traverseSegs
  rw [hs]

/-- Witness for C1 on a concrete tree and the path `"a/./b/.."`. -/
theorem traverse_follows_literal_witness :
    traverse (BrFs.root [("a", BrFs.folder "m" [("b", BrFs.file "f")])]) "a/./b/.." =
      Except.ok (BrFs.folder "m" [("b", BrFs.file "f")]) :=
  traverse_follows_literal _ "a/./b/.." _ rfl

/-- C5: resolving `".."` fails with `NoParentOfRoot`: the lone root is popped
and the final pop finds an empty stack. (Holds for any tree, in particular a
lone Root.) -/
theorem traverse_dotdot_fails (t : BrFs) :
    traverse t ".." = Except.error TraverseError.noParentOfRoot := rfl

/-- C4: listing the root via `list_dir` with each of the input paths `""`,
`"/"` and `"."` produces identical output, namely the root's child names. -/
theorem list_dir_root_three_paths (m : List (String × BrFs)) :
    list_dir (BrFs.root m) "" = Except.ok (strings_to_lines (m.map Prod.fst)) ∧
    list_dir (BrFs.root m) "/" = Except.ok (strings_to_lines (m.map Prod.fst)) ∧
    list_dir (BrFs.root m) "." = Except.ok (strings_to_lines (m.map Prod.fst)) :=
  ⟨rfl, rfl, rfl⟩

/-- Shared helper: if the loop resolves a prefix `p` of the path to a stack
whose top is a Root/Folder with mapping `m`, and the next segment is a literal
name (`≠ "."`, `≠ ".."`) absent from `m`, then `traverse` fails with
`NotFound(name)` no matter what the remaining segments are. -/
theorem traverse_notFound_at (t : BrFs) (path : String) (p rest : List String)
    (name : String) (top : BrFs) (s : List BrFs) (m : List (String × BrFs))
    (hsplit : splitSlash path = p ++ name :: rest)
    (hloop : traverseLoop [t] p = Except.ok (top :: s))
    (hdot : name ≠ ".") (hdd : name ≠ "..")
    (hm : top = BrFs.root m ∨ ∃ md, top = BrFs.folder md m)
    (hmiss : childLookup name m = none) :
    traverse t path = Except.error (TraverseError.notFound name) := by
  unfold traverse traverseSegs
  rw [hsplit, traverseLoop_append, hloop]
  rcases hm with h | ⟨md, h⟩ <;> subst h <;>
    simp [traverseLoop, hdot, hdd, hmiss]

/-- C6: if the loop resolves a prefix of the path normally and the next
segment, `"ghost"`, is not a child of the Root/Folder reached, resolution
fails with `NotFound("ghost")` regardless of every later segment: all-or-nothing,
no partial success. -/
theorem traverse_ghost_notFound (t : BrFs) (path : String) (p rest : List String)
    (top : BrFs) (s : List BrFs) (m : List (String × BrFs))
    (hsplit : splitSlash path = p ++ "ghost" :: rest)
    (hloop : traverseLoop [t] p = Except.ok (top :: s))
    (hm : top = BrFs.root m ∨ ∃ md, top = BrFs.folder md m)
    (hmiss : childLookup "ghost" m = none) :
    traverse t path = Except.error (TraverseError.notFound "ghost") :=
  traverse_notFound_at t path p rest "ghost" top s m hsplit hloop
    (by decide) (by decide) hm hmiss

/-- Witness for C6: `"a/ghost/c"` fails with `NotFound("ghost")` although the
later segment `"c"` names an existing child. -/
theorem traverse_ghost_notFound_witness :
    traverse (BrFs.root [("a", BrFs.folder "m" [("c", BrFs.folder "n" [])])]) "a/ghost/c" =
      Except.error (TraverseError.notFound "ghost") :=
  traverse_ghost_notFound (BrFs.root [("a", BrFs.folder "m" [("c", BrFs.folder "n" [])])])
    "a/ghost/c" ["a"] ["c"] (BrFs.folder "m" [("c", BrFs.folder "n" [])])
    [BrFs.root [("a", BrFs.folder "m" [("c", BrFs.folder "n" [])])]]
    [("c", BrFs.folder "n" [])] rfl rfl (Or.inr ⟨"m", rfl⟩) rfl

/-- Counterexample to C10 as stated: on the tree `Root{}` (which has no child
named `""`), the path `"a//b"` contains consecutive interior slashes, yet
resolution fails with `NotFound("a")`, not `NotFound("")`: an earlier missing
segment preempts the empty-segment lookup. -/
theorem traverse_empty_segment_counterexample :
    traverse (BrFs.root []) "a//b" = Except.error (TraverseError.notFound "a") ∧
    TraverseError.notFound "a" ≠ TraverseError.notFound "" :=
  ⟨rfl, by decide⟩

/-- C10 (amended): when the loop resolves the segments before an empty segment
to a Root/Folder with no child named `""`, resolution fails with
`NotFound("")`: the resolver looks the empty segment up as a literal child
name. Also, the `ls` normalization does not filter interior empty segments
(`lsTrim "a//b" = "a//b"`). -/
theorem traverse_empty_segment_notFound (t : BrFs) (path : String)
    (p rest : List String) (top : BrFs) (s : List BrFs) (m : List (String × BrFs))
    (hsplit : splitSlash path = p ++ "" :: rest)
    (hloop : traverseLoop [t] p = Except.ok (top :: s))
    (hm : top = BrFs.root m ∨ ∃ md, top = BrFs.folder md m)
    (hmiss : childLookup "" m = none) :
    traverse t path = Except.error (TraverseError.notFound "") ∧
    lsTrim "a//b" = "a//b" :=
  ⟨traverse_notFound_at t path p rest "" top s m hsplit hloop
    (by decide) (by decide) hm hmiss, rfl⟩

/-- Witness for C10 (amended): `"a//b"` on `Root{ a: Folder{ b: File } }`
fails with `NotFound("")`. -/
theorem traverse_empty_segment_notFound_witness :
    traverse (BrFs.root [("a", BrFs.folder "m" [("b", BrFs.file "f")])]) "a//b" =
      Except.error (TraverseError.notFound "") ∧
    lsTrim "a//b" = "a//b" :=
  traverse_empty_segment_notFound
    (BrFs.root [("a", BrFs.folder "m" [("b", BrFs.file "f")])]) "a//b"
    ["a"] ["b"] (BrFs.folder "m" [("b", BrFs.file "f")])
    [BrFs.root [("a", BrFs.folder "m" [("b", BrFs.file "f")])]]
    [("b", BrFs.file "f")] rfl rfl (Or.inr ⟨"m", rfl⟩) rfl

/-- Counterexample to C3 as stated: with `b.json` a File, the path
`"a/b.json/.."` — of the form `<folder-name>/<file-name>/<anything>` with
`<anything> = ".."` — does not fail with `TraverseIntoFile`; the `..` pops the
File and resolution succeeds, returning the folder. -/
theorem traverse_into_file_counterexample :
    traverse (BrFs.root [("a", BrFs.folder "m" [("b.json", BrFs.file "f")])]) "a/b.json/.." =
      Except.ok (BrFs.folder "m" [("b.json", BrFs.file "f")]) ∧
    traverse (BrFs.root [("a", BrFs.folder "m" [("b.json", BrFs.file "f")])]) "a/b.json/.." ≠
      Except.error TraverseError.traverseIntoFile :=
  ⟨rfl, fun h => Except.noConfusion h⟩

/-- C3 (amended): if the loop resolves a prefix of the path to a stack whose
top is a File, and the next segment is a literal name (neither `"."` nor
`".."`), resolution fails with `TraverseIntoFile` regardless of the remaining
segments; `"."` and `".."` segments after the File do not raise this error. -/
theorem traverse_into_file (t : BrFs) (path : String) (p rest : List String)
    (seg : String) (md : String) (s : List BrFs)
    (hsplit : splitSlash path = p ++ seg :: rest)
    (hloop : traverseLoop [t] p = Except.ok (BrFs.file md :: s))
    (hdot : seg ≠ ".") (hdd : seg ≠ "..") :
    traverse t path = Except.error TraverseError.traverseIntoFile := by
  unfold traverse traverseSegs
  rw [hsplit, traverseLoop_append, hloop]
  simp [traverseLoop, hdot, hdd]

/-- Witness for C3 (amended): `"a/b.json/c"` fails with `TraverseIntoFile`. -/
theorem traverse_into_file_witness :
    traverse (BrFs.root [("a", BrFs.folder "m" [("b.json", BrFs.file "f")])]) "a/b.json/c" =
      Except.error TraverseError.traverseIntoFile :=
  traverse_into_file (BrFs.root [("a", BrFs.folder "m" [("b.json", BrFs.file "f")])])
    "a/b.json/c" ["a", "b.json"] [] "c" "f"
    [BrFs.folder "m" [("b.json", BrFs.file "f")], BrFs.root [("a", BrFs.folder "m" [("b.json", BrFs.file "f")])]]
    rfl rfl (by decide) (by decide)

/-- The implementation's line buffer equals the spec-side rendering: each name
followed by a newline, joined in order. -/
theorem strings_to_lines_join (l : List String) :
    strings_to_lines l = String.join (l.map (fun n => n ++ "\n")) := by
  simp [strings_to_lines, String.join, List.foldl_map, String.append_assoc]

/-- Counterexample to C7 as stated: listing the path `"/f"`, which resolves to
a File, returns the trimmed path `"f"`, not the literal queried path string
`"/f"` unchanged. -/
theorem list_dir_file_counterexample :
    list_dir (BrFs.root [("f", BrFs.file "x")]) "/f" = Except.ok "f" ∧
    ("f" : String) ≠ "/f" :=
  ⟨rfl, by decide⟩

/-- C7 (amended): when the slash-trimmed path is nonempty and resolves,
listing never fails; on a Root/Folder it returns exactly the direct child
names in order, each terminated by a newline (each name once, given the
mapping's key uniqueness); on a File it returns the slash-trimmed queried path
(the literal queried path when that has no leading/trailing slashes). -/
theorem list_dir_of_resolved (fs : BrFs) (path : String) (node : BrFs)
    (hne : lsTrim path ≠ "")
    (hres : traverse fs (lsTrim path) = Except.ok node) :
    (∀ m, (node = BrFs.root m ∨ ∃ md, node = BrFs.folder md m) →
      list_dir fs path = Except.ok (String.join ((m.map Prod.fst).map (fun n => n ++ "\n"))) ∧
      ((m.map Prod.fst).Nodup → ∀ k ∈ m.map Prod.fst, (m.map Prod.fst).count k = 1)) ∧
    (∀ md, node = BrFs.file md → list_dir fs path = Except.ok (lsTrim path)) := by
  constructor
  · intro m hm
    constructor
    · unfold list_dir
      rw [if_neg hne, hres]
      rcases hm with h | ⟨md, h⟩ <;> subst h <;> simp [strings_to_lines_join]
    · intro hnd k hk
      exact List.count_eq_one_of_mem hnd hk
  · intro md h
    subst h
    unfold list_dir
    rw [if_neg hne, hres]

/-- Witness for C7 (amended): listing `"a"`, a folder with one child `"b"`,
yields `"b\n"` in the joined-lines form, and listing `"a/b"`, a file, yields
the trimmed path. -/
theorem list_dir_of_resolved_witness :
    list_dir (BrFs.root [("a", BrFs.folder "m" [("b", BrFs.file "f")])]) "a" =
      Except.ok (String.join (([("b", BrFs.file "f")].map Prod.fst).map (fun n => n ++ "\n"))) :=
  ((list_dir_of_resolved (BrFs.root [("a", BrFs.folder "m" [("b", BrFs.file "f")])]) "a"
    (BrFs.folder "m" [("b", BrFs.file "f")]) (by decide) rfl).1
    [("b", BrFs.file "f")] (Or.inr ⟨"m", rfl⟩)).1

/-- Counterexample to C2 as stated: the suffix of `"a.tar.json"` after its
last `.` is the recognized `"json"`, yet `read_file` rejects the path with the
unsupported-file-type error: classification uses the first `.` of the whole
path, not the last. -/
theorem read_file_last_dot_counterexample :
    lastDotSuffix "a.tar.json" = some "json" ∧
    read_file "a.tar.json" = some (Except.error "Invalid file type") :=
  ⟨rfl, rfl⟩

/-- C2 (amended): `read_file`'s classification is determined by the substring
after the first `.` of the whole path: two paths with the same first-dot
suffix render identically; the unsupported-file-type error occurs exactly when
that suffix is none of `schema`, `json`, `mps`; and a path with no `.` at all
fails fast (the `unwrap` panics) rather than silently defaulting. -/
theorem read_file_first_dot_classification (p q pre1 pre2 ext : String)
    (hp : splitOnceDot p = some (pre1, ext))
    (hq : splitOnceDot q = some (pre2, ext)) :
    read_file p = read_file q ∧
    (read_file p = some (Except.error "Invalid file type") ↔
      ¬(ext = "schema" ∨ ext = "json" ∨ ext = "mps")) ∧
    (∀ r : String, splitOnceDot r = none → read_file r = none) := by
  refine ⟨?_, ?_, ?_⟩
  · unfold read_file
    rw [hp, hq]
  · unfold read_file
    rw [hp]
    by_cases h1 : ext = "schema"
    · subst h1; simp
    · by_cases h2 : ext = "json"
      · subst h2; simp
      · by_cases h3 : ext = "mps"
        · subst h3; simp
        · simp [h1, h2, h3]
  · intro r hr
    unfold read_file
    rw [hr]

/-- Witness for C2 (amended): `"a.json"` and `"b.json"` share the first-dot
suffix `"json"` and render identically; `"noext"` has no `.` and fails fast. -/
theorem read_file_first_dot_classification_witness :
    read_file "a.json" = read_file "b.json" ∧ read_file "noext" = none :=
  ⟨(read_file_first_dot_classification "a.json" "b.json" "a" "b" "json" rfl rfl).1,
    (read_file_first_dot_classification "a.json" "b.json" "a" "b" "json" rfl rfl).2.2 "noext" rfl⟩

/-- Counterexample to C8 as stated: rendering `"a.xyz"` fails with the
constant error string `"Invalid file type"`, which is not the offending suffix
`"xyz"`: the error does not carry the suffix. -/
theorem read_file_error_payload_counterexample :
    read_file "a.xyz" = some (Except.error "Invalid file type") ∧
    ("Invalid file type" : String) ≠ "xyz" :=
  ⟨rfl, by decide⟩

/-- C8 (amended): for every path whose first-dot suffix is recognized by none
of `schema`, `json`, `mps`, `read_file` fails with the constant
unsupported-file-type error `"Invalid file type"` (the same error for every
such suffix; it does not carry the suffix string). -/
theorem read_file_unsupported (path pre ext : String)
    (h : splitOnceDot path = some (pre, ext))
    (h1 : ext ≠ "schema") (h2 : ext ≠ "json") (h3 : ext ≠ "mps") :
    read_file path = some (Except.error "Invalid file type") := by
  unfold read_file
  rw [h]
  simp [h1, h2, h3]

/-- Witness for C8 (amended): `"a.xyz"` yields the constant error. -/
theorem read_file_unsupported_witness :
    read_file "a.xyz" = some (Except.error "Invalid file type") :=
  read_file_unsupported "a.xyz" "a" "xyz" rfl (by decide) (by decide) (by decide)

/-- Character lists: appending to a string distributes over `toList`. -/
theorem toList_append (s t : String) : (s ++ t).toList = s.toList ++ t.toList :=
  String.data_append s t

/-- `dropLeadingSlashes` over an append: the suffix is reached only when the
whole first part is slashes. -/
theorem dropLeadingSlashes_append (xs ys : List Char) :
    dropLeadingSlashes (xs ++ ys) =
      if dropLeadingSlashes xs = [] then dropLeadingSlashes ys
      else dropLeadingSlashes xs ++ ys := by
  induction xs with
  | nil => simp [dropLeadingSlashes]
  | cons c cs ih =>
    by_cases h : c = '/'
    · subst h; simp [dropLeadingSlashes, ih]
    · simp [dropLeadingSlashes, h]

/-- A list not starting with `'/'` is unchanged by `dropLeadingSlashes`. -/
theorem dropLeadingSlashes_of_head (cs : List Char) (h : cs.head? ≠ some '/') :
    dropLeadingSlashes cs = cs := by
  cases cs with
  | nil => rfl
  | cons c cs2 =>
    simp only [List.head?_cons] at h
    have hc : c ≠ '/' := by
      intro e
      exact h (by rw [e])
    simp [dropLeadingSlashes, hc]

/-- A leading slash is absorbed by the CLI ingestion trim. -/
theorem trim_start_slash_cons (s : String) :
    trim_start_slash ("/" ++ s) = trim_start_slash s := by
  unfold trim_start_slash
  rw [toList_append]
  have h : ("/" : String).toList = ['/'] := rfl
  rw [h]
  simp [dropLeadingSlashes]

/-- A string with no leading slash is unchanged by the CLI ingestion trim. -/
theorem trim_start_slash_of_no_slash (s : String) (h : s.toList.head? ≠ some '/') :
    trim_start_slash s = s := by
  unfold trim_start_slash
  rw [dropLeadingSlashes_of_head s.toList h]
  cases s
  rfl

/-- A leading slash is absorbed by the `ls` trim. -/
theorem lsTrim_cons_slash (s : String) : lsTrim ("/" ++ s) = lsTrim s := by
  unfold lsTrim
  rw [toList_append]
  have h : ("/" : String).toList = ['/'] := rfl
  rw [h]
  simp [dropLeadingSlashes]

/-- A trailing slash is absorbed by the `ls` trim. -/
theorem lsTrim_append_slash (s : String) : lsTrim (s ++ "/") = lsTrim s := by
  unfold lsTrim
  rw [toList_append]
  have h : ("/" : String).toList = ['/'] := rfl
  rw [h, dropLeadingSlashes_append]
  by_cases hc : dropLeadingSlashes s.toList = []
  · have hc2 : dropLeadingSlashes s.data = [] := hc
    simp [hc, hc2, dropLeadingSlashes]
  · rw [if_neg hc, List.reverse_append]
    simp [dropLeadingSlashes]

/-- When the trimmed path is empty, `list_dir` lists the given node directly. -/
theorem list_dir_empty_after_trim (m : List (String × BrFs)) (path : String)
    (h : lsTrim path = "") :
    list_dir (BrFs.root m) path = Except.ok (strings_to_lines (m.map Prod.fst)) := by
  unfold list_dir
  rw [if_pos h]

/-- Counterexample to C9 as stated: on the input `"//a"`, stripping a leading
`/` once yields `"/a"`, but the CLI ingestion (`trim_start_matches("/")`)
strips repeatedly and yields `"a"`. -/
theorem strip_once_counterexample :
    specStripOnce "//a" = "/a" ∧ trim_start_slash "//a" = "a" ∧ ("/a" : String) ≠ "a" :=
  ⟨rfl, rfl, by decide⟩

/-- C9 (amended): at CLI-argument ingestion all leading `/` are stripped
(repeatedly, not once); for `ls`, all leading and all trailing `/` are
stripped; when the trimmed path is empty the root node is listed directly,
without invoking the path resolver (witness the final pair: listing `"/"` on
`Root{}` succeeds with empty output while resolving the trimmed path `""`
would have failed with `NotFound("")`). -/
theorem cli_slash_normalization :
    (∀ s : String, trim_start_slash ("/" ++ s) = trim_start_slash s) ∧
    (∀ s : String, s.toList.head? ≠ some '/' → trim_start_slash s = s) ∧
    (∀ s : String, lsTrim ("/" ++ s) = lsTrim s) ∧
    (∀ s : String, lsTrim (s ++ "/") = lsTrim s) ∧
    (∀ (m : List (String × BrFs)) (path : String), lsTrim path = "" →
      list_dir (BrFs.root m) path = Except.ok (strings_to_lines (m.map Prod.fst))) ∧
    list_dir (BrFs.root []) "/" = Except.ok "" ∧
    traverse (BrFs.root []) "" = Except.error (TraverseError.notFound "") :=
  ⟨trim_start_slash_cons, trim_start_slash_of_no_slash, lsTrim_cons_slash,
    lsTrim_append_slash, list_dir_empty_after_trim, rfl, rfl⟩

/-- Witness for C9 (amended): concrete instances, discharging the hypotheses
of the conditional conjuncts. -/
theorem cli_slash_normalization_witness :
    trim_start_slash "x" = "x" ∧
    lsTrim ("b" ++ "/") = lsTrim "b" ∧
    list_dir (BrFs.root [("a", BrFs.file "f")]) "//" = Except.ok "a\n" :=
  ⟨cli_slash_normalization.2.1 "x" (by decide),
    cli_slash_normalization.2.2.2.1 "b",
    cli_slash_normalization.2.2.2.2.1 [("a", BrFs.file "f")] "//" rfl⟩

end BrdbCmd
